import Mathlib

/-!
Verification of the git-memo relocation engine (src/main.rs).

The Rust program reads an annotation database (RootData), queries git for
the current revision, and for every tag of every comment decides whether to
skip it, check ancestry, run a reverse blame, and append a relocated tag to
an independent copy of the data.  The definitions below are a shallow
embedding of that program: the data structures mirror the serde structs,
the per-tag decision logic mirrors the body of the triple loop in main, and
the external git invocations are modelled as an oracle (a record of the
responses git would give) plus an explicit log of the queries issued.
-/

set_option autoImplicit false

/-- Mirror of the Rust enum TagStatus. -/
inductive TagStatus where
  | Normal : TagStatus
  | Missing : TagStatus
deriving DecidableEq, Repr

/-- Mirror of the Rust struct CommentTag: revision string, line (i32), status. -/
structure CommentTag where
  revision : String
  line : Int
  status : TagStatus
deriving DecidableEq, Repr

/-- Mirror of the Rust struct Comment. -/
structure Comment where
  text : String
  tags : List CommentTag
deriving DecidableEq, Repr

/-- Mirror of the Rust struct FileData. -/
structure FileData where
  path : String
  comments : List Comment
deriving DecidableEq, Repr

/-- Mirror of the Rust struct RootData. -/
structure RootData where
  files : List FileData
deriving DecidableEq, Repr

/-- Mirror of the Rust struct GitBlameResult: one parsed trace record. -/
structure GitBlameResult where
  revision : String
  orig_line_number : Int
  new_line_number : Int
deriving DecidableEq, Repr

/--
The external git oracle, as observed by the happy path of main: the answer
of git rev-parse (captured stdout, newline included as captured), the
answer of git merge-base --is-ancestor for a given tag revision (second
argument is always the literal HEAD in main), and the parsed records of
git blame --reverse -n for a given file path and revision range.  The repo
path is the fixed ./example-repo in main and is therefore not a parameter.
-/
structure GitOracle where
  current_revision : String
  is_ancestor : String → Bool
  blame : String → String → List GitBlameResult

/-- One external git invocation, recorded in program order. -/
inductive GitQuery where
  | revParse : GitQuery
  | mergeBaseIsAncestor : String → String → GitQuery
  | blameReverse : String → String → GitQuery
deriving DecidableEq, Repr

/-- Rust usize-to-i32 cast (as i32): truncate to 32 bits, reinterpret signed.
Mirrors results.len() as i32 in main. -/
def toI32 (n : Nat) : Int :=
  if n % 2 ^ 32 < 2 ^ 31 then ((n % 2 ^ 32 : Nat) : Int)
  else ((n % 2 ^ 32 : Nat) : Int) - 2 ^ 32

/-- Default record used only to express the (always in-bounds) Vec index of main. -/
def defaultRecord : GitBlameResult := ⟨"", 0, 0⟩

/--
The per-tag decision of the loop body of main (lines 217-250): skip when the
tag revision equals the current revision; otherwise ask the ancestry oracle;
if it is an ancestor, run the reverse blame and, when
1 <= tag.line && tag.line <= results.len() as i32, produce the new tag
built from results[(tag.line - 1) as usize].  Returns the tag pushed onto
the output copy, or none when nothing is pushed.
-/
def processTag (o : GitOracle) (path : String) (t : CommentTag) : Option CommentTag :=
  if t.revision = o.current_revision then none
  else if o.is_ancestor t.revision then
    let results := o.blame path (t.revision ++ "..HEAD")
    if 1 ≤ t.line ∧ t.line ≤ toI32 results.length then
      let new_info := results.getD (t.line - 1).toNat defaultRecord
      some ⟨new_info.revision, new_info.new_line_number, TagStatus.Normal⟩
    else none
  else none

/-- The git invocations issued while processing one tag, in program order:
none when the tag is skipped, the ancestry check otherwise, followed by the
blame invocation when the ancestry check answered true. -/
def tagQueries (o : GitOracle) (path : String) (t : CommentTag) : List GitQuery :=
  if t.revision = o.current_revision then []
  else if o.is_ancestor t.revision then
    [GitQuery.mergeBaseIsAncestor t.revision ("HEAD"),
     GitQuery.blameReverse path (t.revision ++ "..HEAD")]
  else [GitQuery.mergeBaseIsAncestor t.revision ("HEAD")]

/-- Replace the element at an index, leaving the list unchanged when the
index is out of range.  Used to express the in-place indexed updates
new_data.files[file_index].comments[comment_index] of main. -/
def modifyIdx {α : Type} (f : α → α) : Nat → List α → List α
  | _, [] => []
  | 0, a :: l => f a :: l
  | n + 1, a :: l => a :: modifyIdx f n l

/-- Append a batch of tags to the comment at (fi, ci) of a RootData. -/
def appendTagsAt (d : RootData) (fi ci : Nat) (ts : List CommentTag) : RootData :=
  ⟨modifyIdx
    (fun fd => ⟨fd.path, modifyIdx (fun c => ⟨c.text, c.tags ++ ts⟩) ci fd.comments⟩)
    fi d.files⟩

/-- Mirror of new_data.files[fi].comments[ci].tags.push(t) in main. -/
def pushTag (d : RootData) (fi ci : Nat) (t : CommentTag) : RootData :=
  appendTagsAt d fi ci [t]

/--
The mutable state of a processing pass: the binding data (the input, read
from in.json, which the loop only ever reads), the binding new_data (the
clone the loop pushes into), and the ghost log of git invocations issued so
far.
-/
structure PassState where
  data : RootData
  new_data : RootData
  log : List GitQuery
deriving Repr

/-- One iteration of the innermost loop of main for the tag t of the comment
at (fi, ci): possibly push a relocated tag into new_data, record the git
queries issued, and leave the input binding untouched. -/
def stepTag (o : GitOracle) (path : String) (fi ci : Nat) (s : PassState) (t : CommentTag) :
    PassState :=
  ⟨s.data,
   match processTag o path t with
   | none => s.new_data
   | some nt => pushTag s.new_data fi ci nt,
   s.log ++ tagQueries o path t⟩

/--
The whole processing pass of main (lines 209-257): clone the input into
new_data, query the current revision once, then iterate over the files,
comments and tags of the INPUT data (enumerate supplies the indices used to
address new_data), running stepTag for every input tag.
-/
def runPass (o : GitOracle) (d : RootData) : PassState :=
  d.files.enum.foldl
    (fun s fp =>
      fp.2.comments.enum.foldl
        (fun s2 cp => cp.2.tags.foldl (stepTag o fp.2.path fp.1 cp.1) s2)
        s)
    ⟨d, d, [GitQuery.revParse]⟩

/-- Structural description of the effect of the pass on one comment: the
input tags, followed by the relocated tag of every input tag that produced
one. -/
def processComment (o : GitOracle) (path : String) (c : Comment) : Comment :=
  ⟨c.text, c.tags ++ c.tags.filterMap (processTag o path)⟩

/-- Structural description of the effect of the pass on one file. -/
def processFile (o : GitOracle) (fd : FileData) : FileData :=
  ⟨fd.path, fd.comments.map (processComment o fd.path)⟩

/-- Structural description of the output copy produced by the pass. -/
def processRoot (o : GitOracle) (d : RootData) : RootData :=
  ⟨d.files.map (processFile o)⟩

/-- The git invocations of a whole pass: one rev-parse, then the per-tag
queries of every input tag in program order. -/
def passQueries (o : GitOracle) (d : RootData) : List GitQuery :=
  GitQuery.revParse ::
    d.files.flatMap (fun fd =>
      fd.comments.flatMap (fun c => c.tags.flatMap (tagQueries o fd.path)))

/-- Mirror of get_sample_data in main.rs. -/
def get_sample_data : RootData :=
  ⟨[⟨"./README.md",
     [⟨"hello A", [⟨"39690ed", 1, TagStatus.Normal⟩]⟩,
      ⟨"hello B", [⟨"39690ed", 2, TagStatus.Normal⟩]⟩]⟩]⟩

/-!
## The external process adapters (lines 77-141 of main.rs)

Each adapter spawns git and inspects the captured output.  The behaviour of
the child process is not part of the program, so it enters the model as a
value of SpawnOutcome: the spawn itself failed (the Rust expect call then
aborts the process), waiting for the output failed (the question-mark
operator then propagates the error), or the process completed with an exit
status, captured stdout and captured stderr.
-/

/-- Exit status, captured stdout and captured stderr of a completed git
child process.  exit_code is none when the process was killed by a signal
(status.code() returns None and the unwrap in the adapter aborts). -/
structure ProcOutput where
  exit_code : Option Int
  stdout : String
  stderr : String
deriving DecidableEq, Repr

/-- What happened when an adapter spawned git and waited for it. -/
inductive SpawnOutcome where
  | spawnFailed : String → SpawnOutcome
  | waitFailed : String → SpawnOutcome
  | completed : ProcOutput → SpawnOutcome
deriving DecidableEq, Repr

/-- Result of running one adapter: a value, a propagated recoverable error
(Rust Err), or a process abort (Rust panic). -/
inductive RunResult (α : Type) where
  | ok : α → RunResult α
  | err : String → RunResult α
  | aborted : String → RunResult α
deriving DecidableEq, Repr

/-- The message of the expect call guarding every spawn in main.rs. -/
def spawnFailMsg : String := "git command failed to start"

/-- The fixed message of a Rust panic from Option::unwrap on None. -/
def unwrapNoneMsg : String := "called Option::unwrap() on a None value"

/-- The fixed message of a Rust panic from Result::unwrap on an Err holding
a ParseIntError. -/
def unwrapParseErrMsg : String :=
  "called Result::unwrap() on an Err value: ParseIntError"

/--
Mirror of git_current_revision (lines 77-90): spawn git rev-parse --short
HEAD (abort on spawn failure), propagate a wait failure, and otherwise
return the captured stdout.  The exit status and the captured stderr are
never inspected.
-/
def git_current_revision : SpawnOutcome → RunResult String
  | SpawnOutcome.spawnFailed _ => RunResult.aborted spawnFailMsg
  | SpawnOutcome.waitFailed e => RunResult.err e
  | SpawnOutcome.completed out => RunResult.ok out.stdout

/--
Mirror of git_merge_base_is_ancestor (lines 92-110): spawn git merge-base
--is-ancestor (abort on spawn failure), propagate a wait failure, abort if
the exit status carries no code, and otherwise return whether the exit code
equals zero.  stdout and stderr are never inspected.
-/
def git_merge_base_is_ancestor : SpawnOutcome → RunResult Bool
  | SpawnOutcome.spawnFailed _ => RunResult.aborted spawnFailMsg
  | SpawnOutcome.waitFailed e => RunResult.err e
  | SpawnOutcome.completed out =>
    match out.exit_code with
    | none => RunResult.aborted unwrapNoneMsg
    | some c => RunResult.ok (c == 0)

/-!
## The trace output parser (lines 132-172 of main.rs)

git_blame_reverse matches every stdout line against the fixed pattern
(a caret anchor, a named group revision of one or more non-space
characters, a space, a named group new_line of one or more non-space
characters, a space, one or more non-closing-parenthesis characters, a
space, a named group orig_line of one or more ASCII digits, and a closing
parenthesis) and parses the two numeric groups as i32.  The functions
below replay the leftmost-first semantics of the regex crate on that
pattern, character by character.
-/

/-- Match a maximal nonempty run of non-space characters followed by a
single literal space; return the run and the remainder after the space.
This is the shape of the two leading groups of the pattern. -/
def splitTok (cs : List Char) : Option (List Char × List Char) :=
  let tok := cs.takeWhile (fun c => c != ' ')
  match cs.drop tok.length with
  | ' ' :: rest => if tok.isEmpty then none else some (tok, rest)
  | _ => none

/--
The three captured groups of the blame pattern on one line, or none when
the pattern does not match.  After the two space-delimited tokens, the
pattern requires a prefix of the form: one or more non-parenthesis
characters, a space, one or more digits, then the first closing
parenthesis of the remainder.  With the greedy leftmost-first semantics of
the regex crate this selects, inside the segment s before the first
closing parenthesis, the digit run after the last space of s — provided
that run is nonempty, everything after that last space is a digit, and the
part of s before that space is nonempty.
-/
def parseCaptures (cs : List Char) : Option (List Char × List Char × List Char) :=
  match splitTok cs with
  | none => none
  | some (rev, r1) =>
    match splitTok r1 with
    | none => none
    | some (nl, r2) =>
      let s := r2.takeWhile (fun c => c != ')')
      if s.length == r2.length then none
      else
        let rs := s.reverse
        let ds := rs.takeWhile (fun c => c.isDigit)
        match ds, rs.drop ds.length with
        | [], _ => none
        | _ :: _, ' ' :: pre => if pre.isEmpty then none else some (rev, nl, ds.reverse)
        | _, _ => none

/-- Numeric value of a digit character. -/
def digitVal (c : Char) : Nat := c.toNat - 48

/-- Value of a digit string, most significant first. -/
def digitsVal (cs : List Char) : Nat := cs.foldl (fun a c => a * 10 + digitVal c) 0

/-- A nonempty all-digit string parsed to its value, none otherwise. -/
def parseDigits (cs : List Char) : Option Nat :=
  if cs.isEmpty then none
  else if cs.all (fun c => c.isDigit) then some (digitsVal cs) else none

/-- Mirror of str::parse::<i32>: an optional sign, one or more ASCII
digits, and a range check against the i32 bounds. -/
def parseI32 (cs : List Char) : Option Int :=
  match cs with
  | '+' :: rest =>
    match parseDigits rest with
    | none => none
    | some n => if n < 2 ^ 31 then some (n : Int) else none
  | '-' :: rest =>
    match parseDigits rest with
    | none => none
    | some n => if n ≤ 2 ^ 31 then some (-(n : Int)) else none
  | _ =>
    match parseDigits cs with
    | none => none
    | some n => if n < 2 ^ 31 then some (n : Int) else none

/--
Mirror of GitBlameResult::new_from_line (lines 150-172), at the fixed
pattern passed by git_blame_reverse: the captures call unwraps (aborting
with the fixed Option::unwrap panic message when the pattern does not
match), then the new_line and orig_line groups are parsed as i32 and
unwrapped (aborting with the fixed Result::unwrap panic message when a
group does not parse).  On success the record holds the revision token and
the two numbers.
-/
def new_from_line (line : String) : RunResult GitBlameResult :=
  match parseCaptures line.toList with
  | none => RunResult.aborted unwrapNoneMsg
  | some (rev, nl, ol) =>
    match parseI32 nl with
    | none => RunResult.aborted unwrapParseErrMsg
    | some n =>
      match parseI32 ol with
      | none => RunResult.aborted unwrapParseErrMsg
      | some o => RunResult.ok ⟨rev.asString, o, n⟩

/-- The parsing loop of git_blame_reverse (lines 132-139) over the captured
stdout lines: parse every line in order, propagating the first abort. -/
def parseAllLines : List String → RunResult (List GitBlameResult)
  | [] => RunResult.ok []
  | l :: ls =>
    match new_from_line l with
    | RunResult.ok r =>
      match parseAllLines ls with
      | RunResult.ok rs => RunResult.ok (r :: rs)
      | RunResult.err m => RunResult.err m
      | RunResult.aborted m => RunResult.aborted m
    | RunResult.err m => RunResult.err m
    | RunResult.aborted m => RunResult.aborted m

/-!
## Concrete oracles and data used by the witnesses and counterexamples
-/

/-- Oracle for the scenario of the spec: current revision xyz789, every
revision an ancestor, and a two-record trace. -/
def scenarioOracle : GitOracle :=
  ⟨"xyz789", fun _ => true,
   fun _ _ => [⟨"abc123", 1, 1⟩, ⟨"def456", 2, 5⟩]⟩

/-- Oracle whose blame answer has 2 to the 31st records, exercising the
usize-to-i32 cast of the record count in main. -/
def bigOracle : GitOracle :=
  ⟨"cur", fun _ => true, fun _ _ => List.replicate (2 ^ 31) ⟨"r", 1, 1⟩⟩

/-- A tag whose line 1 lies inside such a trace. -/
def bigTag : CommentTag := ⟨"old", 1, TagStatus.Normal⟩

/-- Oracle whose (parseable) blame answer carries a non-positive new line
number. -/
def negOracle : GitOracle :=
  ⟨"cur", fun _ => true, fun _ _ => [⟨"abc", 3, -5⟩]⟩

/-- Oracle answering every ancestry check with true and every blame with an
empty trace. -/
def emptyBlameOracle : GitOracle := ⟨"cur", fun _ => true, fun _ _ => []⟩

/-- Oracle whose current revision is cur and that never reaches blame. -/
def skipOracle : GitOracle := ⟨"cur", fun _ => false, fun _ _ => []⟩

/-- A comment whose only tag is stamped at the current revision of
skipOracle. -/
def skipComment : Comment := ⟨"hello", [⟨"cur", 1, TagStatus.Normal⟩]⟩

/-!
## Helper lemmas
-/

theorem modifyIdx_append_cons {α : Type} (f : α → α) (pre : List α) (a : α) (l : List α) :
    modifyIdx f pre.length (pre ++ a :: l) = pre ++ f a :: l := by
  induction pre with
  | nil => rfl
  | cons b pre ih => simp [modifyIdx, ih]

theorem modifyIdx_comp {α : Type} (f g : α → α) (i : Nat) (l : List α) :
    modifyIdx f i (modifyIdx g i l) = modifyIdx (fun a => f (g a)) i l := by
  induction l generalizing i with
  | nil => simp [modifyIdx]
  | cons a l ih =>
    cases i with
    | zero => rfl
    | succ n => simp [modifyIdx, ih]

theorem modifyIdx_congr {α : Type} (f g : α → α) (h : ∀ a, f a = g a) (i : Nat)
    (l : List α) : modifyIdx f i l = modifyIdx g i l := by
  induction l generalizing i with
  | nil => simp [modifyIdx]
  | cons a l ih =>
    cases i with
    | zero => simp [modifyIdx, h]
    | succ n => simp [modifyIdx, ih]

theorem modifyIdx_id {α : Type} (i : Nat) (l : List α) : modifyIdx (fun a => a) i l = l := by
  induction l generalizing i with
  | nil => simp [modifyIdx]
  | cons a l ih =>
    cases i with
    | zero => rfl
    | succ n => simp [modifyIdx, ih]

theorem appendTagsAt_nil (d : RootData) (fi ci : Nat) : appendTagsAt d fi ci [] = d := by
  unfold appendTagsAt
  have h2 : ∀ fd : FileData,
      (⟨fd.path,
        modifyIdx (fun c => ⟨c.text, c.tags ++ ([] : List CommentTag)⟩) ci fd.comments⟩ :
        FileData) = fd := by
    intro fd
    have h1 := modifyIdx_congr (fun c : Comment => ⟨c.text, c.tags ++ []⟩)
      (fun c => c) (by intro c; simp) ci fd.comments
    rw [h1, modifyIdx_id]
  rw [modifyIdx_congr _ _ h2 fi d.files, modifyIdx_id]

theorem appendTagsAt_append (d : RootData) (fi ci : Nat) (xs ys : List CommentTag) :
    appendTagsAt (appendTagsAt d fi ci xs) fi ci ys = appendTagsAt d fi ci (xs ++ ys) := by
  unfold appendTagsAt
  rw [modifyIdx_comp]
  refine congrArg RootData.mk (modifyIdx_congr _ _ ?_ fi d.files)
  intro fd
  show (⟨fd.path,
      modifyIdx (fun c => ⟨c.text, c.tags ++ ys⟩) ci
        (modifyIdx (fun c => ⟨c.text, c.tags ++ xs⟩) ci fd.comments)⟩ : FileData) = _
  rw [modifyIdx_comp]
  refine congrArg (FileData.mk fd.path) (modifyIdx_congr _ _ ?_ ci fd.comments)
  intro c
  show (⟨c.text, c.tags ++ xs ++ ys⟩ : Comment) = _
  rw [List.append_assoc]

theorem tagFold (o : GitOracle) (p : String) (fi ci : Nat) (ts : List CommentTag) :
    ∀ s : PassState,
      ts.foldl (stepTag o p fi ci) s
        = ⟨s.data, appendTagsAt s.new_data fi ci (ts.filterMap (processTag o p)),
           s.log ++ ts.flatMap (tagQueries o p)⟩ := by
  induction ts with
  | nil =>
    intro s
    simp [appendTagsAt_nil]
  | cons t ts ih =>
    intro s
    simp only [List.foldl_cons]
    rw [ih]
    cases h : processTag o p t with
    | none =>
      simp [stepTag, h, List.filterMap_cons, List.flatMap_cons, List.append_assoc]
    | some nt =>
      simp [stepTag, h, pushTag, appendTagsAt_append, List.filterMap_cons,
        List.flatMap_cons, List.append_assoc]

theorem commentsFold (o : GitOracle) (p : String) (preF postF : List FileData)
    (pathF : String) :
    ∀ (cs pre : List Comment) (dat : RootData) (lg : List GitQuery),
      (List.enumFrom pre.length cs).foldl
        (fun s2 cp => cp.2.tags.foldl (stepTag o p preF.length cp.1) s2)
        ⟨dat, ⟨preF ++ (⟨pathF, pre ++ cs⟩ : FileData) :: postF⟩, lg⟩
      = ⟨dat, ⟨preF ++ (⟨pathF, pre ++ cs.map (processComment o p)⟩ : FileData) :: postF⟩,
         lg ++ cs.flatMap (fun c => c.tags.flatMap (tagQueries o p))⟩ := by
  intro cs
  induction cs with
  | nil =>
    intro pre dat lg
    simp [List.enumFrom]
  | cons c rest ih =>
    intro pre dat lg
    simp only [List.enumFrom, List.foldl_cons]
    rw [tagFold]
    have hnd : appendTagsAt ⟨preF ++ (⟨pathF, pre ++ c :: rest⟩ : FileData) :: postF⟩
        preF.length pre.length (c.tags.filterMap (processTag o p))
        = ⟨preF ++ (⟨pathF, pre ++ processComment o p c :: rest⟩ : FileData) :: postF⟩ := by
      unfold appendTagsAt
      rw [modifyIdx_append_cons]
      show RootData.mk (preF ++ (⟨pathF,
        modifyIdx (fun cc => ⟨cc.text, cc.tags ++ c.tags.filterMap (processTag o p)⟩)
          pre.length (pre ++ c :: rest)⟩ : FileData) :: postF) = _
      rw [modifyIdx_append_cons]
      rfl
    have ih2 := ih (pre ++ [processComment o p c]) dat
      (lg ++ c.tags.flatMap (tagQueries o p))
    simp only [List.length_append, List.length_cons, List.length_nil, List.append_assoc,
      List.singleton_append] at ih2
    show (List.enumFrom (pre.length + 1) rest).foldl
        (fun s2 cp => cp.2.tags.foldl (stepTag o p preF.length cp.1) s2) _ = _
    rw [hnd, ih2]
    simp [List.append_assoc]

theorem filesFold (o : GitOracle) :
    ∀ (fs preF : List FileData) (dat : RootData) (lg : List GitQuery),
      (List.enumFrom preF.length fs).foldl
        (fun s fp =>
          fp.2.comments.enum.foldl
            (fun s2 cp => cp.2.tags.foldl (stepTag o fp.2.path fp.1 cp.1) s2)
            s)
        ⟨dat, ⟨preF ++ fs⟩, lg⟩
      = ⟨dat, ⟨preF ++ fs.map (processFile o)⟩,
         lg ++ fs.flatMap
           (fun fd => fd.comments.flatMap (fun c => c.tags.flatMap (tagQueries o fd.path)))⟩ := by
  intro fs
  induction fs with
  | nil =>
    intro preF dat lg
    simp [List.enumFrom]
  | cons fd rest ih =>
    intro preF dat lg
    simp only [List.enumFrom, List.foldl_cons]
    have hc : fd.comments.enum.foldl
        (fun s2 cp => cp.2.tags.foldl (stepTag o fd.path preF.length cp.1) s2)
        ⟨dat, ⟨preF ++ fd :: rest⟩, lg⟩
        = (⟨dat, ⟨preF ++ (⟨fd.path, fd.comments.map (processComment o fd.path)⟩ :
             FileData) :: rest⟩,
           lg ++ fd.comments.flatMap (fun c => c.tags.flatMap (tagQueries o fd.path))⟩ :
           PassState) :=
      commentsFold o fd.path preF rest fd.path fd.comments [] dat lg
    show (List.enumFrom (preF.length + 1) rest).foldl
        (fun s fp =>
          fp.2.comments.enum.foldl
            (fun s2 cp => cp.2.tags.foldl (stepTag o fp.2.path fp.1 cp.1) s2)
            s)
        (fd.comments.enum.foldl
          (fun s2 cp => cp.2.tags.foldl (stepTag o fd.path preF.length cp.1) s2)
          ⟨dat, ⟨preF ++ fd :: rest⟩, lg⟩) = _
    rw [hc]
    have ih2 := ih (preF ++ [processFile o fd]) dat
      (lg ++ fd.comments.flatMap (fun c => c.tags.flatMap (tagQueries o fd.path)))
    simp only [List.length_append, List.length_cons, List.length_nil, List.append_assoc,
      List.singleton_append] at ih2
    have hfd : (⟨fd.path, fd.comments.map (processComment o fd.path)⟩ : FileData)
        = processFile o fd := rfl
    rw [hfd, ih2]
    simp [List.append_assoc]

/-- The pass of main equals its structural description: the input binding is
returned untouched, the output copy is processRoot, and the git invocations
are exactly passQueries. -/
theorem runPass_eq (o : GitOracle) (d : RootData) :
    runPass o d = ⟨d, processRoot o d, passQueries o d⟩ :=
  filesFold o d.files [] d [GitQuery.revParse]

theorem toI32_le (n : Nat) : toI32 n ≤ (n : Int) := by
  unfold toI32
  split <;> omega

theorem toI32_of_lt {n : Nat} (h : n < 2 ^ 31) : toI32 n = (n : Int) := by
  unfold toI32
  split <;> omega

theorem getD_map {α β : Type} (f : α → β) (l : List α) (i : Nat) (da : α) :
    (l.map f).getD i (f da) = f (l.getD i da) := by
  induction l generalizing i with
  | nil => rfl
  | cons a l ih =>
    cases i with
    | zero => rfl
    | succ n =>
      simp only [List.map_cons, List.getD_cons_succ]
      exact ih n

theorem getD_mem {α : Type} (l : List α) (i : Nat) (da : α) (h : i < l.length) :
    l.getD i da ∈ l := by
  induction l generalizing i with
  | nil => simp at h
  | cons a l ih =>
    cases i with
    | zero => simp [List.getD]
    | succ n =>
      simp only [List.getD_cons_succ]
      exact List.mem_cons_of_mem _ (ih n (by simpa using h))

/-- Every tag produced by processTag comes from a record of the blame
answer for that tag: its revision and line are that record's revision and
new line number, and its status is Normal. -/
theorem processTag_some (o : GitOracle) (p : String) (t nt : CommentTag)
    (h : processTag o p t = some nt) :
    ∃ rec ∈ o.blame p (t.revision ++ "..HEAD"),
      nt = ⟨rec.revision, rec.new_line_number, TagStatus.Normal⟩ := by
  unfold processTag at h
  by_cases h1 : t.revision = o.current_revision
  · simp [h1] at h
  · rw [if_neg h1] at h
    cases h2 : o.is_ancestor t.revision with
    | false => rw [h2] at h; simp at h
    | true =>
      rw [h2] at h
      simp only [if_true] at h
      by_cases h3 : 1 ≤ t.line ∧ t.line ≤ toI32 (o.blame p (t.revision ++ "..HEAD")).length
      · rw [if_pos h3] at h
        obtain ⟨hg1, hg2⟩ := h3
        refine ⟨(o.blame p (t.revision ++ "..HEAD")).getD (t.line - 1).toNat defaultRecord,
          ?_, by injection h with h; exact h.symm⟩
        have hle := toI32_le (o.blame p (t.revision ++ "..HEAD")).length
        exact getD_mem _ _ _ (by omega)
      · rw [if_neg h3] at h
        simp at h

/-!
## The claims
-/

/--
C1 (amended): for every tag that reaches the relocation step with a parsed
trace of N records where N is less than 2 to the 31st, if
1 <= tag.line <= N then exactly the record at index tag.line - 1 is
selected, and the new tag appended to the comment's tag sequence has
revision equal to that record's revision, line equal to that record's
current (new) line number, and status Normal.  The bound on N is forced by
the usize-to-i32 cast of the record count in main (see
C1_trace_count_overflow): without it the comparison can wrap and an
in-range tag is silently dropped.
-/
theorem C1_positional_lookup (o : GitOracle) (p : String) (t : CommentTag)
    (h1 : ¬ t.revision = o.current_revision)
    (h2 : o.is_ancestor t.revision = true)
    (hk1 : 1 ≤ t.line)
    (hk2 : t.line ≤ ((o.blame p (t.revision ++ "..HEAD")).length : Int))
    (hN : (o.blame p (t.revision ++ "..HEAD")).length < 2 ^ 31) :
    processTag o p t =
      some ⟨((o.blame p (t.revision ++ "..HEAD")).getD (t.line - 1).toNat
               defaultRecord).revision,
            ((o.blame p (t.revision ++ "..HEAD")).getD (t.line - 1).toNat
               defaultRecord).new_line_number,
            TagStatus.Normal⟩ := by
  simp only [processTag]
  rw [if_neg h1, h2]
  simp only [if_true]
  rw [toI32_of_lt hN]
  rw [if_pos ⟨hk1, hk2⟩]

/--
C1 counterexample: with a parsed trace of exactly 2 to the 31st records and
a tag with line 1 that reaches the relocation step, the claim requires the
first record to be selected and a tag to be appended, but the program
appends nothing: results.len() as i32 wraps to a negative number, so the
bounds check fails and processTag returns none.
-/
theorem C1_trace_count_overflow :
    ¬ bigTag.revision = bigOracle.current_revision ∧
    bigOracle.is_ancestor bigTag.revision = true ∧
    1 ≤ bigTag.line ∧
    bigTag.line ≤ ((bigOracle.blame ("f") (bigTag.revision ++ "..HEAD")).length : Int) ∧
    processTag bigOracle ("f") bigTag = none := by
  have hlen : (bigOracle.blame ("f") (bigTag.revision ++ "..HEAD")).length = 2 ^ 31 := by
    show (List.replicate (2 ^ 31) (⟨"r", 1, 1⟩ : GitBlameResult)).length = 2 ^ 31
    exact List.length_replicate _ _
  have htoI : toI32 (2 ^ 31) = -(2 ^ 31 : Int) := by
    unfold toI32
    norm_num
  refine ⟨by decide, rfl, by decide, ?_, ?_⟩
  · rw [hlen]
    show (1 : Int) ≤ ((2 ^ 31 : Nat) : Int)
    norm_num
  · simp only [processTag]
    rw [if_neg (show ¬ bigTag.revision = bigOracle.current_revision by decide)]
    rw [show bigOracle.is_ancestor bigTag.revision = true from rfl]
    simp only [if_true]
    have hng : ¬ (1 ≤ bigTag.line ∧
        bigTag.line ≤ toI32 (bigOracle.blame ("f") (bigTag.revision ++ "..HEAD")).length) := by
      rw [hlen, htoI]
      intro hcon
      have hb := hcon.2
      have h1 : bigTag.line = 1 := rfl
      omega
    rw [if_neg hng]

/-- C1 witness: the concrete scenario of the spec: tag abc123 at line 2,
current revision xyz789, a two-record trace; the appended tag is def456 at
line 5. -/
theorem C1_positional_lookup_witness :
    processTag scenarioOracle ("f") ⟨"abc123", 2, TagStatus.Normal⟩
      = some ⟨"def456", 5, TagStatus.Normal⟩ := by
  have h := C1_positional_lookup scenarioOracle ("f") ⟨"abc123", 2, TagStatus.Normal⟩
    (by decide) rfl (by decide) (by decide) (by decide)
  exact h

/--
C2: for every comment (addressed by any file index and comment index), the
output copy's tag sequence after a full pass is the input tag sequence
followed by the appended relocations: every input tag is present,
unchanged, at its original position, and the length never shrinks.
-/
theorem C2_append_only (o : GitOracle) (d : RootData) (fi ci : Nat) :
    (((runPass o d).new_data.files.getD fi ⟨"", []⟩).comments.getD ci ⟨"", []⟩).tags
      = ((d.files.getD fi ⟨"", []⟩).comments.getD ci ⟨"", []⟩).tags
        ++ ((d.files.getD fi ⟨"", []⟩).comments.getD ci ⟨"", []⟩).tags.filterMap
            (processTag o ((d.files.getD fi ⟨"", []⟩).path))
    ∧ ((d.files.getD fi ⟨"", []⟩).comments.getD ci ⟨"", []⟩).tags.length
      ≤ (((runPass o d).new_data.files.getD fi ⟨"", []⟩).comments.getD ci ⟨"", []⟩).tags.length := by
  have hfile : (runPass o d).new_data.files.getD fi ⟨"", []⟩
      = processFile o (d.files.getD fi ⟨"", []⟩) := by
    rw [runPass_eq]
    exact getD_map (processFile o) d.files fi ⟨"", []⟩
  have hcomment : (processFile o (d.files.getD fi ⟨"", []⟩)).comments.getD ci ⟨"", []⟩
      = processComment o ((d.files.getD fi ⟨"", []⟩).path)
          ((d.files.getD fi ⟨"", []⟩).comments.getD ci ⟨"", []⟩) :=
    getD_map (processComment o ((d.files.getD fi ⟨"", []⟩).path))
      ((d.files.getD fi ⟨"", []⟩).comments) ci ⟨"", []⟩
  rw [hfile, hcomment]
  constructor
  · rfl
  · simp [processComment]

/--
C3: every tag whose revision equals the current revision is skipped: no git
query at all is issued for it and it contributes no appended tag; a comment
all of whose tags are current is returned unchanged by the pass.
-/
theorem C3_skip_current (o : GitOracle) (p : String) :
    (∀ t : CommentTag, t.revision = o.current_revision →
        processTag o p t = none ∧ tagQueries o p t = []) ∧
    (∀ c : Comment, (∀ t ∈ c.tags, t.revision = o.current_revision) →
        processComment o p c = c) := by
  constructor
  · intro t ht
    exact ⟨by simp [processTag, ht], by simp [tagQueries, ht]⟩
  · intro c hc
    have hnil : c.tags.filterMap (processTag o p) = [] := by
      rw [List.filterMap_eq_nil_iff]
      intro t ht
      simp [processTag, hc t ht]
    cases c with
    | mk text tags =>
      simp only [processComment] at hnil ⊢
      rw [hnil, List.append_nil]

/-- C3 witness: a comment whose single tag carries the current revision is
returned unchanged. -/
theorem C3_skip_current_witness :
    processComment skipOracle ("f") skipComment = skipComment :=
  (C3_skip_current skipOracle ("f")).2 skipComment (by decide)

/--
C4: a tag that reaches the trace step with a line out of range of the
parsed trace (line < 1 or line > number of records) appends no tag and
raises no error: the step for that tag leaves both the input binding and
the output copy unchanged and the pass simply continues.
-/
theorem C4_out_of_range (o : GitOracle) (p : String) (t : CommentTag)
    (h1 : ¬ t.revision = o.current_revision)
    (h2 : o.is_ancestor t.revision = true)
    (h3 : t.line < 1 ∨ ((o.blame p (t.revision ++ "..HEAD")).length : Int) < t.line) :
    processTag o p t = none ∧
    ∀ (fi ci : Nat) (s : PassState),
      (stepTag o p fi ci s t).new_data = s.new_data ∧
      (stepTag o p fi ci s t).data = s.data := by
  have hpt : processTag o p t = none := by
    simp only [processTag]
    rw [if_neg h1, h2]
    simp only [if_true]
    have hng : ¬ (1 ≤ t.line ∧
        t.line ≤ toI32 (o.blame p (t.revision ++ "..HEAD")).length) := by
      have hle := toI32_le (o.blame p (t.revision ++ "..HEAD")).length
      rcases h3 with h | h
      · intro hcon; omega
      · intro hcon
        have := hcon.2
        omega
    rw [if_neg hng]
  refine ⟨hpt, ?_⟩
  intro fi ci s
  exact ⟨by simp [stepTag, hpt], by simp [stepTag, hpt]⟩

/-- C4 witness: a tag with line 5 against an empty trace is dropped without
error. -/
theorem C4_out_of_range_witness :
    processTag emptyBlameOracle ("f") ⟨"old", 5, TagStatus.Normal⟩ = none :=
  (C4_out_of_range emptyBlameOracle ("f") ⟨"old", 5, TagStatus.Normal⟩
    (by decide) rfl (by decide)).1

/--
C5 counterexample: an exit code other than the two expected ones (here 128,
as git produces for a usage error) does not yield an OracleError: the
adapter still returns the boolean false, because it compares the code
against zero and never distinguishes the expected failure code 1 from any
other nonzero code.
-/
theorem C5_unexpected_exit_code :
    git_merge_base_is_ancestor
        (SpawnOutcome.completed ⟨some 128, "", "fatal: Not a valid object name"⟩)
      = RunResult.ok false := by decide

/--
C5 (amended): the ancestry query returns true exactly on exit code zero and
false on every nonzero exit code; no exit code produces an OracleError.  An
error is propagated only when waiting on the child fails, and the adapter
aborts (panics) when the spawn fails or when the exit status carries no
code.
-/
theorem C5_exit_code_boolean :
    (∀ m, git_merge_base_is_ancestor (SpawnOutcome.spawnFailed m)
        = RunResult.aborted spawnFailMsg) ∧
    (∀ m, git_merge_base_is_ancestor (SpawnOutcome.waitFailed m) = RunResult.err m) ∧
    (∀ (out : ProcOutput) (c : Int), out.exit_code = some c →
        git_merge_base_is_ancestor (SpawnOutcome.completed out) = RunResult.ok (c == 0)) ∧
    (∀ out : ProcOutput, out.exit_code = none →
        git_merge_base_is_ancestor (SpawnOutcome.completed out)
          = RunResult.aborted unwrapNoneMsg) := by
  refine ⟨fun m => rfl, fun m => rfl, ?_, ?_⟩
  · intro out c h
    obtain ⟨ec, so, se⟩ := out
    cases h
    rfl
  · intro out h
    obtain ⟨ec, so, se⟩ := out
    cases h
    rfl

/-- C5 witness: exit code zero yields true. -/
theorem C5_exit_code_boolean_witness :
    git_merge_base_is_ancestor (SpawnOutcome.completed ⟨some 0, "", ""⟩)
      = RunResult.ok true := by
  have h := C5_exit_code_boolean.2.2.1 ⟨some 0, "", ""⟩ 0 rfl
  simpa using h

/--
C6 counterexample: a completed rev-parse with exit code 1 and nonempty
stderr does not fail: the adapter returns the captured (empty) stdout as
the revision, never inspecting the exit status or stderr.
-/
theorem C6_nonzero_exit_ignored :
    git_current_revision
        (SpawnOutcome.completed ⟨some 1, "", "fatal: not a git repository"⟩)
      = RunResult.ok "" := by decide

/--
C6 (amended): the current-revision query returns the captured stdout as the
revision whenever the child process completes, regardless of exit status,
and never surfaces stderr; an error is propagated only when waiting on the
child fails (and that error is the wait failure, not stderr), and a spawn
failure aborts (panics) instead of returning an OracleError.
-/
theorem C6_stdout_unconditional :
    (∀ m, git_current_revision (SpawnOutcome.spawnFailed m)
        = RunResult.aborted spawnFailMsg) ∧
    (∀ m, git_current_revision (SpawnOutcome.waitFailed m) = RunResult.err m) ∧
    (∀ out : ProcOutput, git_current_revision (SpawnOutcome.completed out)
        = RunResult.ok out.stdout) :=
  ⟨fun _ => rfl, fun _ => rfl, fun _ => rfl⟩

/--
C7 counterexample: two distinct raw lines that fail to match the pattern
produce the same abort: the parse failure is an unwrap panic whose fixed
message cannot carry the offending raw line text, contradicting the claim
that the error surfaces the offending line.
-/
theorem C7_panic_lacks_line :
    new_from_line ("@@@") = RunResult.aborted unwrapNoneMsg ∧
    new_from_line ("###") = RunResult.aborted unwrapNoneMsg ∧
    ("@@@" : String) ≠ ("###" : String) := by
  refine ⟨by decide, by decide, by decide⟩

/--
C7 (amended): if a raw trace line does not match the fixed pattern, or a
captured numeric group does not parse as an i32, parsing aborts the pass
with a fixed unwrap-panic message that is independent of the line (it does
not carry the raw line text); the abort of any line aborts the whole trace
parse; otherwise parsing returns a TraceRecord with the captured revision
token, original line number, and new line number.
-/
theorem C7_parse_behaviour (line : String) :
    (parseCaptures line.toList = none →
      new_from_line line = RunResult.aborted unwrapNoneMsg) ∧
    (∀ rev nl ol, parseCaptures line.toList = some (rev, nl, ol) →
      ((parseI32 nl = none ∨ parseI32 ol = none) →
        new_from_line line = RunResult.aborted unwrapParseErrMsg) ∧
      (∀ (n o : Int), parseI32 nl = some n → parseI32 ol = some o →
        new_from_line line = RunResult.ok ⟨rev.asString, o, n⟩)) ∧
    (∀ (m : String) (ls : List String), new_from_line line = RunResult.aborted m →
      parseAllLines (line :: ls) = RunResult.aborted m) := by
  refine ⟨?_, ?_, ?_⟩
  · intro h
    have h2 : parseCaptures line.data = none := h
    simp [new_from_line, h2]
  · intro rev nl ol hcap
    have hcap2 : parseCaptures line.data = some (rev, nl, ol) := hcap
    constructor
    · rintro (hn | ho)
      · simp [new_from_line, hcap2, hn]
      · cases hn : parseI32 nl with
        | none => simp [new_from_line, hcap2, hn]
        | some n => simp [new_from_line, hcap2, hn, ho]
    · intro n o hn ho
      simp [new_from_line, hcap2, hn, ho]
  · intro m ls h
    simp [parseAllLines, h]

/-- C7 witness: a well-formed line parses to its three captured fields. -/
theorem C7_parse_behaviour_witness :
    new_from_line ("abc 5 (x 3) y") = RunResult.ok ⟨"abc", 3, 5⟩ := by
  have h := ((C7_parse_behaviour ("abc 5 (x 3) y")).2.1
    ("abc".toList) ("5".toList) ("3".toList) (by decide)).2 5 3 (by decide) (by decide)
  simpa using h

/--
C8: a processing pass never mutates the input RootData: the input binding
held by the pass state is returned identical to the data read at the start,
and re-running the pass on that preserved input reproduces exactly the same
pass (same output copy, same query log).
-/
theorem C8_input_immutable (o : GitOracle) (d : RootData) :
    (runPass o d).data = d ∧ runPass o ((runPass o d).data) = runPass o d := by
  have h1 : (runPass o d).data = d := by rw [runPass_eq]
  refine ⟨h1, ?_⟩
  rw [h1]

/--
C9 counterexample: the parser accepts a line whose new-line-number token is
the negative integer -5 (the group is any non-space run, parsed as i32),
and relocating an in-range tag against the resulting record appends a tag
with line -5 < 1, violating the claimed invariant that every tag has
line >= 1.
-/
theorem C9_negative_line :
    new_from_line ("abc -5 (x 3) y") = RunResult.ok ⟨"abc", 3, -5⟩ ∧
    processTag negOracle ("f") ⟨"old", 1, TagStatus.Normal⟩
      = some ⟨"abc", -5, TagStatus.Normal⟩ ∧
    ¬ (1 : Int) ≤ (-5 : Int) := by
  refine ⟨by decide, by decide, by decide⟩

/--
C9 (amended): provided every record of every blame answer has a positive
new line number (as real git blame -n output does) and every input tag has
line >= 1, every tag of the output copy of a full pass has line >= 1.  The
code itself never validates this: a trace record with a non-positive new
line number yields an appended tag with line < 1 (see C9_negative_line).
-/
theorem C9_line_invariant (o : GitOracle) (d : RootData)
    (hb : ∀ p r rec, rec ∈ o.blame p r → 1 ≤ rec.new_line_number)
    (hd : ∀ fd ∈ d.files, ∀ c ∈ fd.comments, ∀ t ∈ c.tags, 1 ≤ t.line) :
    ∀ fd ∈ (runPass o d).new_data.files, ∀ c ∈ fd.comments, ∀ t ∈ c.tags, 1 ≤ t.line := by
  rw [runPass_eq]
  show ∀ fd ∈ (processRoot o d).files, _
  intro fd hfd c hc t ht
  simp only [processRoot, List.mem_map] at hfd
  obtain ⟨fd0, hfd0, rfl⟩ := hfd
  simp only [processFile, List.mem_map] at hc
  obtain ⟨c0, hc0, rfl⟩ := hc
  simp only [processComment, List.mem_append] at ht
  rcases ht with ht | ht
  · exact hd fd0 hfd0 c0 hc0 t ht
  · simp only [List.mem_filterMap] at ht
    obtain ⟨t0, _, hpt⟩ := ht
    obtain ⟨rec, hrec, rfl⟩ := processTag_some o fd0.path t0 t hpt
    exact hb fd0.path (t0.revision ++ "..HEAD") rec hrec

/-- C9 witness: the amended invariant applied at a concrete oracle (empty
blame answers), the sample data of main.rs, and the concrete tag of its
first comment in the output of the pass. -/
theorem C9_line_invariant_witness :
    1 ≤ (⟨"39690ed", 1, TagStatus.Normal⟩ : CommentTag).line :=
  C9_line_invariant skipOracle get_sample_data
    (fun _ _ _ h => by simp [skipOracle] at h)
    (by decide)
    ⟨"./README.md",
     [⟨"hello A", [⟨"39690ed", 1, TagStatus.Normal⟩]⟩,
      ⟨"hello B", [⟨"39690ed", 2, TagStatus.Normal⟩]⟩]⟩
    (by decide)
    ⟨"hello A", [⟨"39690ed", 1, TagStatus.Normal⟩]⟩
    (by decide)
    ⟨"39690ed", 1, TagStatus.Normal⟩
    (by decide)

/--
C10: the pass iterates only over the tags of the input snapshot: the output
copy is a structural function (processRoot) of the input data alone, the
sequence of git queries issued is a structural function (passQueries) of
the input data alone — so a tag appended during the pass is never itself
checked, traced or relocated — and each comment gains at most one appended
tag per input tag.
-/
theorem C10_input_snapshot_only (o : GitOracle) (d : RootData) :
    (runPass o d).new_data = processRoot o d ∧
    (runPass o d).log = passQueries o d ∧
    ∀ (p : String) (c : Comment),
      (processComment o p c).tags = c.tags ++ c.tags.filterMap (processTag o p) ∧
      (processComment o p c).tags.length ≤ 2 * c.tags.length := by
  rw [runPass_eq]
  refine ⟨rfl, rfl, ?_⟩
  intro p c
  refine ⟨rfl, ?_⟩
  have h := List.length_filterMap_le (processTag o p) c.tags
  simp only [processComment, List.length_append]
  omega
